import Mathlib

/-!
# odo : Docker adapter utilities and test helpers

A shallow embedding of `pkg/devfile/adapters/docker/utils/utils.go`, of
`ReplaceDevfileField` from `tests/helper/helper_filesystem.go`, and of the
argument validator and `Complete` of `pkg/odo/cli/env/set.go`.

Conventions of the embedding

* A Go pointer that is only read (`*string`, `*container.Config`) is an
  `Option`: `none` is the nil pointer.
* A Go function that can hit a nil dereference or an index out of range
  returns an `Option`: `none` is the run-time panic, `some v` is a normal
  return of `v`.
* A Go `for ... range` loop with an early `return` is a structural recursion
  over the list that is ranged over.
* Go strings are Lean strings; `fmt.Sprintf("%s=%s", a, b)` on two strings is
  `a ++ "=" ++ b`. The separators cut on are the ASCII characters newline and
  colon, for which cutting UTF-8 text by bytes and by characters is the same.
-/

namespace Odo

/-! ## Data model (the fields the code reads or writes) -/

/-- Go `common.DockerimageEnv`: both fields are `*string`. -/
structure DockerimageEnv where
  Name : Option String
  Value : Option String
  deriving DecidableEq, Repr

/-- Go `common.DevfileComponent`, restricted to the two fields read by this
package: `Image *string` and `Env []DockerimageEnv`. -/
structure DevfileComponent where
  Image : Option String
  Env : List DockerimageEnv
  deriving DecidableEq, Repr

/-- Docker `container.Config`, restricted to the fields read here. -/
structure Config where
  Image : String
  Env : List String
  deriving DecidableEq, Repr

/-- Docker `mount.Mount`: `Type` is a string type in Docker (`mount.Type`). -/
structure Mount where
  Type_ : String
  Source : String
  Target : String
  deriving DecidableEq, Repr

/-- Docker `types.MountPoint`. -/
structure MountPoint where
  Type_ : String
  Name : String
  Source : String
  Destination : String
  deriving DecidableEq, Repr

/-- Docker `container.HostConfig`: the mount list, and every other field
gathered in `other` (the type of the rest of the record is a parameter). -/
structure HostConfig (ρ : Type) where
  Mounts : List Mount
  other : ρ

/-- Docker constant `mount.TypeVolume`. -/
def TypeVolume : String := "volume"

/-- The part of `lclient.Client` used by `ComponentExists`. Both methods live
outside this package and are parameters. `GetContainerList` returns Go's pair
`([]types.Container, error)`; the error is `none` for Go's `nil`. -/
structure Client (κ ε : Type) where
  GetContainerList : List κ × Option ε
  GetContainersByComponent : String → List κ → List κ

/-! ## `utils.go` -/

/-- Go `ComponentExists`. -/
def ComponentExists {κ ε : Type} (client : Client κ ε) (name : String) : Bool :=
  match client.GetContainerList with
  | (containerList, err) =>
    if err.isSome then
      false
    else
      let containers := client.GetContainersByComponent name containerList
      containers.length != 0

/-- The loop of `ConvertEnvs`: `dockerVars` is the slice built so far. -/
def ConvertEnvs.loop (dockerVars : List String) : List DockerimageEnv → Option (List String)
  | [] => some dockerVars
  | env :: rest =>
    match env.Name, env.Value with
    | some name, some value =>
      let envString := name ++ "=" ++ value
      ConvertEnvs.loop (dockerVars ++ [envString]) rest
    | _, _ => none

/-- Go `ConvertEnvs`. `*env.Name` and `*env.Value` panic on nil. -/
def ConvertEnvs (vars : List DockerimageEnv) : Option (List String) :=
  ConvertEnvs.loop [] vars

/-- Go `containerHasEnvVar`. -/
def containerHasEnvVar (envVar : String) : List String → Bool
  | [] => false
  | env :: rest => if envVar == env then true else containerHasEnvVar envVar rest

/-- Go `containerHasMount`. -/
def containerHasMount (devfileMount : Mount) : List MountPoint → Bool
  | [] => false
  | mount :: rest =>
    if devfileMount.Source == mount.Name && devfileMount.Target == mount.Destination then
      true
    else
      containerHasMount devfileMount rest

/-- The first loop of `DoesContainerNeedUpdating`: `true` when the loop takes
its early `return true`. -/
def DoesContainerNeedUpdating.mountLoop (containerMounts : List MountPoint) : List Mount → Bool
  | [] => false
  | devfileMount :: rest =>
    if !containerHasMount devfileMount containerMounts then
      true
    else
      DoesContainerNeedUpdating.mountLoop containerMounts rest

/-- The second loop of `DoesContainerNeedUpdating`. -/
def DoesContainerNeedUpdating.envLoop (containerEnv : List String) : List String → Bool
  | [] => false
  | envVar :: rest =>
    if !containerHasEnvVar envVar containerEnv then
      true
    else
      DoesContainerNeedUpdating.envLoop containerEnv rest

/-- Go `DoesContainerNeedUpdating`. `component.Image` is a `*string` and
`containerConfig` a `*container.Config`; dereferencing either when nil
panics. `ConvertEnvs` runs only after the mount loop has fallen through. -/
def DoesContainerNeedUpdating (component : DevfileComponent) (containerConfig : Option Config)
    (devfileMounts : List Mount) (containerMounts : List MountPoint) : Option Bool :=
  match component.Image, containerConfig with
  | some image, some cfg =>
    if image != cfg.Image then
      some true
    else if DoesContainerNeedUpdating.mountLoop containerMounts devfileMounts then
      some true
    else
      match ConvertEnvs component.Env with
      | none => none
      | some devfileEnvVars =>
        if DoesContainerNeedUpdating.envLoop cfg.Env devfileEnvVars then
          some true
        else
          some false
  | _, _ => none

/-- Go `AddProjectVolumeToComp`. `hostConfig` is a `*container.HostConfig`
that is written through: it is `none` (nil) or `some (a, hc)`, the address `a`
together with the config `hc` stored there when the call starts. The result
is `none` for the nil dereference, and otherwise the returned pointer: its
address, with the config stored there when the call returns. `Mounts` is the
content of the slice (indices below its length). `append` may write the new
element into spare capacity of the backing array of `hostConfig.Mounts`; what
that does to other slices over the same array is not described here, the
embedding follows the config behind `hostConfig` only. `OdoSourceVolumeMount`
is the constant `lclient.OdoSourceVolumeMount`, defined outside this
package. -/
def AddProjectVolumeToComp {ρ : Type} (OdoSourceVolumeMount : String) (projectVolumeName : String)
    (hostConfig : Option (Nat × HostConfig ρ)) : Option (Nat × HostConfig ρ) :=
  let mount : Mount :=
    { Type_ := TypeVolume, Source := projectVolumeName, Target := OdoSourceVolumeMount }
  match hostConfig with
  | none => none
  | some (a, hc) => some (a, { hc with Mounts := hc.Mounts ++ [mount] })

/-! ## Go `strings` functions used by `ReplaceDevfileField`

The separators at the call sites are the one-character strings `"\n"` and
`":"`, so the separator of `Split` and `SplitN` is a `Char` here. -/

/-- Cut a character list at every `sep`; `cur` is the piece being read. -/
def strings.splitChars (sep : Char) : List Char → List Char → List (List Char)
  | cur, [] => [cur]
  | cur, c :: cs =>
    if c = sep then cur :: strings.splitChars sep [] cs
    else strings.splitChars sep (cur ++ [c]) cs

/-- Go `strings.Split(s, sep)` for a one-character `sep`: all pieces, and
`[s]` when `sep` does not occur (also for the empty `s`). -/
def strings.Split (s : String) (sep : Char) : List String :=
  (strings.splitChars sep [] s.data).map String.mk

/-- Cut a character list at the first `k` occurrences of `sep`, leaving the
remainder uncut; `cur` is the piece being read. -/
def strings.cutN (sep : Char) : Nat → List Char → List Char → List (List Char)
  | _, cur, [] => [cur]
  | 0, cur, c :: cs => [cur ++ c :: cs]
  | k + 1, cur, c :: cs =>
    if c = sep then cur :: strings.cutN sep k [] cs
    else strings.cutN sep (k + 1) (cur ++ [c]) cs

/-- Go `strings.SplitN(s, sep, n)` for a one-character `sep` and `n ≥ 0`:
no piece for `n = 0`, otherwise at most `n` pieces, the last being the unsplit
remainder. -/
def strings.SplitN (s : String) (sep : Char) (n : Nat) : List String :=
  if n = 0 then [] else (strings.cutN sep (n - 1) [] s.data).map String.mk

/-- Whether `sub` occurs in the character list as a contiguous block. -/
def strings.containsChars (sub : List Char) : List Char → Bool
  | [] => sub.isEmpty
  | c :: cs => sub.isPrefixOf (c :: cs) || strings.containsChars sub cs

/-- Go `strings.Contains(s, substr)`. -/
def strings.Contains (s substr : String) : Bool :=
  strings.containsChars substr.data s.data

/-- Go `strings.Join(elems, sep)`. -/
def strings.Join : List String → String → String
  | [], _ => ""
  | [a], _ => a
  | a :: b :: rest, sep => a ++ sep ++ strings.Join (b :: rest) sep

/-! ## `helper_filesystem.go` -/

/-- The two `ioutil` calls of `ReplaceDevfileField`, parameters of the model.
`ReadFile` returns Go's pair `([]byte, error)`, `WriteFile` the error of the
write (`none` for `nil`). -/
structure FileSystem (ε : Type) where
  ReadFile : String → String × Option ε
  WriteFile : String → String → Option ε

/-- The loop of `ReplaceDevfileField` over `lines`, up to its `break`. The
result is the slice `lines` after the loop; `none` is the index-out-of-range
panic of `lineSplit[1] = newValue` on a one-element `lineSplit`. -/
def ReplaceDevfileField.loop (field newValue : String) : List String → Option (List String)
  | [] => some []
  | line :: rest =>
    if strings.Contains line field then
      let lineSplit := strings.SplitN line ':' 2
      if 1 < lineSplit.length then
        let lineSplit := lineSplit.set 1 newValue
        some (strings.Join lineSplit ": " :: rest)
      else
        none
    else
      (ReplaceDevfileField.loop field newValue rest).map (fun out => line :: out)

/-- Go `ReplaceDevfileField`. `none` is a panic; `some (err, written)` is a
return of `err`, with `written` the content handed to `ioutil.WriteFile`
(`none` when `WriteFile` was not reached). -/
def ReplaceDevfileField {ε : Type} (fs : FileSystem ε) (devfileLocation field newValue : String) :
    Option (Option ε × Option String) :=
  match fs.ReadFile devfileLocation with
  | (_, some err) => some (some err, none)
  | (file, none) =>
    let lines := strings.Split file '\n'
    match ReplaceDevfileField.loop field newValue lines with
    | none => none
    | some lines =>
      let output := strings.Join lines "\n"
      match fs.WriteFile devfileLocation output with
      | some err => some (some err, some output)
      | none => some (none, some output)

/-- A file system with one file content, on which reads and writes succeed. -/
def FileSystem.single (content : String) : FileSystem Unit :=
  { ReadFile := fun _ => (content, none), WriteFile := fun _ _ => none }

example : AddProjectVolumeToComp "/projects" "src-vol" (none : Option (Nat × HostConfig Unit))
    = none := rfl
example : (AddProjectVolumeToComp "/projects" "src-vol"
    (some (7, (⟨[⟨"bind", "/a", "/b"⟩], ()⟩ : HostConfig Unit)))).map (fun r => (r.1, r.2.Mounts))
    = some (7, [⟨"bind", "/a", "/b"⟩, ⟨"volume", "src-vol", "/projects"⟩]) := by decide
example : strings.Split "a\nb\n" '\n' = ["a", "b", ""] := by decide
example : strings.Split "" '\n' = [""] := by decide
example : strings.SplitN "a: b: c" ':' 2 = ["a", " b: c"] := by decide
example : strings.SplitN "a: b: c" ':' 3 = ["a", " b", " c"] := by decide
example : strings.SplitN "a: b: c" ':' 1 = ["a: b: c"] := by decide
example : strings.SplitN "abc" ':' 2 = ["abc"] := by decide
example : strings.SplitN "" ':' 2 = [""] := by decide
example : strings.Contains "abcd" "bc" = true := by decide
example : strings.Contains "abcd" "" = true := by decide
example : strings.Contains "" "" = true := by decide
example : strings.Contains "abcd" "bd" = false := by decide
example : ReplaceDevfileField (FileSystem.single "a: 1\ntype: x\ntype: y") "devfile" "type" "z"
    = some (none, some "a: 1\ntype: z\ntype: y") := by decide
example : ReplaceDevfileField (FileSystem.single "# type\ntype: y") "devfile" "type" "z"
    = none := by decide

/-! ## `pkg/odo/cli/env/set.go` -/

/-- Go `SetOptions`. `cfg` is a `*envinfo.EnvSpecificInfo`; the pointee type
lives outside this package and is the parameter `κ`. -/
structure SetOptions (κ : Type) where
  context : String
  cfg : Option κ
  paramName : String
  paramValue : String
  forceFlag : Bool

/-- The `Args` function literal of the command built by `NewCmdSet`. The
result is the returned `error`: `none` for `nil`, `some msg` for
`fmt.Errorf(msg)`. The `cmd` argument is not used by the body. -/
def NewCmdSet.Args (args : List String) : Option String :=
  if args.length < 2 then
    some "please provide a parameter name and value"
  else if args.length > 2 then
    some "only one value per parameter is allowed"
  else
    none

/-- Go `(o *SetOptions).Complete`. `NewEnvSpecificInfo` is
`envinfo.NewEnvSpecificInfo`, defined outside this package, returning Go's
pair `(*EnvSpecificInfo, error)`. The result is `none` when `args[0]` or
`args[1]` is out of range (panic); otherwise it is the receiver after the call
together with the returned error, where `some (msg, cause)` stands for
`errors.Wrap(cause, msg)`. The `name` and `cmd` arguments are not used by the
body. -/
def SetOptions.Complete {κ ε : Type} (NewEnvSpecificInfo : String → Option κ × Option ε)
    (o : SetOptions κ) (args : List String) : Option (SetOptions κ × Option (String × ε)) :=
  match NewEnvSpecificInfo o.context with
  | (cfg, some err) =>
    some ({ o with cfg := cfg }, some ("failed to load environment file", err))
  | (cfg, none) =>
    let o := { o with cfg := cfg }
    match args[0]? with
    | none => none
    | some arg0 =>
      let o := { o with paramName := arg0 }
      match args[1]? with
      | none => none
      | some arg1 =>
        let o := { o with paramValue := arg1 }
        some (o, none)

example : NewCmdSet.Args [] = some "please provide a parameter name and value" := by decide
example : NewCmdSet.Args ["Name"] = some "please provide a parameter name and value" := by decide
example : NewCmdSet.Args ["Name", "a"] = none := by decide
example : NewCmdSet.Args ["Name", "a", "b"] = some "only one value per parameter is allowed" := by
  decide

/-! ## Lemmas on the loops -/

theorem containerHasEnvVar_eq_true (envVar : String) (containerEnv : List String) :
    containerHasEnvVar envVar containerEnv = true ↔ envVar ∈ containerEnv := by
  induction containerEnv with
  | nil => simp [containerHasEnvVar]
  | cons env rest ih =>
    by_cases h : envVar = env
    · simp [containerHasEnvVar, h]
    · simp [containerHasEnvVar, h, ih]

theorem containerHasMount_eq_true (devfileMount : Mount) (containerMounts : List MountPoint) :
    containerHasMount devfileMount containerMounts = true ↔
      ∃ p ∈ containerMounts, p.Name = devfileMount.Source ∧ p.Destination = devfileMount.Target := by
  induction containerMounts with
  | nil => simp [containerHasMount]
  | cons mount rest ih =>
    by_cases h : devfileMount.Source = mount.Name ∧ devfileMount.Target = mount.Destination
    · have h1 : (devfileMount.Source == mount.Name && devfileMount.Target == mount.Destination)
          = true := by simp [h.1, h.2]
      simp only [containerHasMount, h1, if_true, true_iff]
      exact ⟨mount, List.mem_cons_self _ _, h.1.symm, h.2.symm⟩
    · have h1 : (devfileMount.Source == mount.Name && devfileMount.Target == mount.Destination)
          = false := by
        rw [Bool.eq_false_iff]
        intro hc
        simp only [Bool.and_eq_true, beq_iff_eq] at hc
        exact h hc
      have h2 : containerHasMount devfileMount (mount :: rest)
          = containerHasMount devfileMount rest := by
        simp [containerHasMount, h1]
      rw [h2, ih]
      simp only [List.mem_cons, exists_eq_or_imp]
      constructor
      · intro hr
        exact Or.inr hr
      · rintro (⟨hn, hd⟩ | hr)
        · exact absurd ⟨hn.symm, hd.symm⟩ h
        · exact hr

theorem mountLoop_eq_true (containerMounts : List MountPoint) (devfileMounts : List Mount) :
    DoesContainerNeedUpdating.mountLoop containerMounts devfileMounts = true ↔
      ∃ m ∈ devfileMounts,
        ¬ ∃ p ∈ containerMounts, p.Name = m.Source ∧ p.Destination = m.Target := by
  induction devfileMounts with
  | nil => simp [DoesContainerNeedUpdating.mountLoop]
  | cons m rest ih =>
    cases hm : containerHasMount m containerMounts with
    | true =>
      have hp := (containerHasMount_eq_true m containerMounts).1 hm
      have h2 : DoesContainerNeedUpdating.mountLoop containerMounts (m :: rest)
          = DoesContainerNeedUpdating.mountLoop containerMounts rest := by
        simp [DoesContainerNeedUpdating.mountLoop, hm]
      rw [h2, ih]
      simp only [List.mem_cons, exists_eq_or_imp]
      constructor
      · intro hr
        exact Or.inr hr
      · rintro (hn | hr)
        · exact absurd hp hn
        · exact hr
    | false =>
      have hp : ¬ ∃ p ∈ containerMounts, p.Name = m.Source ∧ p.Destination = m.Target := by
        intro hc
        rw [(containerHasMount_eq_true m containerMounts).2 hc] at hm
        exact Bool.noConfusion hm
      simp only [DoesContainerNeedUpdating.mountLoop, hm, List.mem_cons, exists_eq_or_imp]
      simp [hp]

theorem envLoop_eq_true (containerEnv : List String) (devfileEnvVars : List String) :
    DoesContainerNeedUpdating.envLoop containerEnv devfileEnvVars = true ↔
      ∃ s ∈ devfileEnvVars, s ∉ containerEnv := by
  induction devfileEnvVars with
  | nil => simp [DoesContainerNeedUpdating.envLoop]
  | cons s rest ih =>
    by_cases hs : s ∈ containerEnv
    · have h1 := (containerHasEnvVar_eq_true s containerEnv).2 hs
      simp [DoesContainerNeedUpdating.envLoop, h1, ih, hs]
    · have h1 : containerHasEnvVar s containerEnv = false := by
        rw [Bool.eq_false_iff]
        intro hc
        exact hs ((containerHasEnvVar_eq_true s containerEnv).1 hc)
      simp [DoesContainerNeedUpdating.envLoop, h1, hs]

/-- The loop of `ConvertEnvs` panics exactly when some pair has a nil field. -/
theorem ConvertEnvs_loop_eq_none (vars : List DockerimageEnv) :
    ∀ dockerVars : List String,
      ConvertEnvs.loop dockerVars vars = none ↔ ∃ e ∈ vars, e.Name = none ∨ e.Value = none := by
  induction vars with
  | nil => intro acc; simp [ConvertEnvs.loop]
  | cons env rest ih =>
    intro acc
    rcases env with ⟨_ | name, _ | value⟩ <;> simp [ConvertEnvs.loop, ih]

/-- On pairs without nil fields the loop of `ConvertEnvs` appends the encoded
pairs, in order, to what was built before. -/
theorem ConvertEnvs_loop_map (pairs : List (String × String)) :
    ∀ dockerVars : List String,
      ConvertEnvs.loop dockerVars (pairs.map (fun p => ⟨some p.1, some p.2⟩))
        = some (dockerVars ++ pairs.map (fun p => p.1 ++ "=" ++ p.2)) := by
  induction pairs with
  | nil => intro acc; simp [ConvertEnvs.loop]
  | cons p rest ih =>
    intro acc
    simp [ConvertEnvs.loop, ih]

/-- A list of pairs without nil fields is the image of a list of string pairs. -/
theorem exists_pairs_of_valid (vars : List DockerimageEnv)
    (h : ∀ e ∈ vars, e.Name ≠ none ∧ e.Value ≠ none) :
    ∃ pairs : List (String × String), vars = pairs.map (fun p => ⟨some p.1, some p.2⟩) := by
  induction vars with
  | nil => exact ⟨[], rfl⟩
  | cons env rest ih =>
    obtain ⟨pairs, hp⟩ := ih (fun e he => h e (List.mem_cons_of_mem _ he))
    rcases env with ⟨_ | name, _ | value⟩
    · exact absurd rfl (h _ (List.mem_cons_self _ _)).1
    · exact absurd rfl (h _ (List.mem_cons_self _ _)).1
    · exact absurd rfl (h _ (List.mem_cons_self _ _)).2
    · exact ⟨(name, value) :: pairs, by simp [hp]⟩

/-- Membership in the result of `ConvertEnvs`. -/
theorem ConvertEnvs_mem (vars : List DockerimageEnv) (out : List String)
    (h : ConvertEnvs vars = some out) (s : String) :
    s ∈ out ↔ ∃ e ∈ vars, ∃ n v, e.Name = some n ∧ e.Value = some v ∧ s = n ++ "=" ++ v := by
  have hv : ∀ e ∈ vars, e.Name ≠ none ∧ e.Value ≠ none := by
    intro e he
    have hn : ¬ ∃ e ∈ vars, e.Name = none ∨ e.Value = none := by
      intro hc
      have := (ConvertEnvs_loop_eq_none vars []).2 hc
      rw [ConvertEnvs] at h
      rw [this] at h
      exact Option.noConfusion h
    constructor
    · intro hc; exact hn ⟨e, he, Or.inl hc⟩
    · intro hc; exact hn ⟨e, he, Or.inr hc⟩
  obtain ⟨pairs, hp⟩ := exists_pairs_of_valid vars hv
  subst hp
  rw [ConvertEnvs, ConvertEnvs_loop_map] at h
  simp only [List.nil_append, Option.some.injEq] at h
  subst h
  simp only [List.mem_map]
  constructor
  · rintro ⟨p, hp, rfl⟩
    exact ⟨⟨some p.1, some p.2⟩, ⟨p, hp, rfl⟩, p.1, p.2, rfl, rfl, rfl⟩
  · rintro ⟨e, ⟨p, hp, rfl⟩, n, v, hn, hv, rfl⟩
    simp only [Option.some.injEq] at hn hv
    exact ⟨p, hp, by rw [hn, hv]⟩

/-- Unfolding of `DoesContainerNeedUpdating` on non-nil image and config. -/
theorem DoesContainerNeedUpdating_unfold (component : DevfileComponent) (image : String)
    (cfg : Config) (devfileMounts : List Mount) (containerMounts : List MountPoint)
    (hImage : component.Image = some image) :
    DoesContainerNeedUpdating component (some cfg) devfileMounts containerMounts =
      if image != cfg.Image then some true
      else if DoesContainerNeedUpdating.mountLoop containerMounts devfileMounts then some true
      else match ConvertEnvs component.Env with
        | none => none
        | some devfileEnvVars =>
          if DoesContainerNeedUpdating.envLoop cfg.Env devfileEnvVars then some true
          else some false := by
  simp only [DoesContainerNeedUpdating, hImage]

/-- When `DoesContainerNeedUpdating` returns `true`. -/
theorem DoesContainerNeedUpdating_eq_true (component : DevfileComponent) (image : String)
    (cfg : Config) (devfileMounts : List Mount) (containerMounts : List MountPoint)
    (hImage : component.Image = some image) :
    DoesContainerNeedUpdating component (some cfg) devfileMounts containerMounts = some true ↔
      image ≠ cfg.Image ∨
      (∃ m ∈ devfileMounts,
        ¬ ∃ p ∈ containerMounts, p.Name = m.Source ∧ p.Destination = m.Target) ∨
      ((∀ e ∈ component.Env, e.Name ≠ none ∧ e.Value ≠ none) ∧
        ∃ e ∈ component.Env, ∃ n v,
          e.Name = some n ∧ e.Value = some v ∧ n ++ "=" ++ v ∉ cfg.Env) := by
  rw [DoesContainerNeedUpdating_unfold component image cfg devfileMounts containerMounts hImage]
  by_cases h1 : image = cfg.Image
  · have hb : (image != cfg.Image) = false := by simp [h1]
    rw [hb, if_neg Bool.false_ne_true]
    cases hm : DoesContainerNeedUpdating.mountLoop containerMounts devfileMounts with
    | true =>
      have := (mountLoop_eq_true containerMounts devfileMounts).1 hm
      rw [if_pos rfl]
      exact ⟨fun _ => Or.inr (Or.inl this), fun _ => rfl⟩
    | false =>
      rw [if_neg Bool.false_ne_true]
      have hnm : ¬ ∃ m ∈ devfileMounts,
          ¬ ∃ p ∈ containerMounts, p.Name = m.Source ∧ p.Destination = m.Target := by
        intro hc
        rw [(mountLoop_eq_true containerMounts devfileMounts).2 hc] at hm
        exact Bool.noConfusion hm
      cases hc : ConvertEnvs component.Env with
      | none =>
        obtain ⟨e, he, hnil⟩ := (ConvertEnvs_loop_eq_none component.Env []).1 hc
        have hnv : ¬ ∀ e ∈ component.Env, e.Name ≠ none ∧ e.Value ≠ none := by
          intro hv
          rcases hnil with h | h
          · exact (hv e he).1 h
          · exact (hv e he).2 h
        constructor
        · intro hx
          exact Option.noConfusion hx
        · rintro (hx | hx | ⟨hx, _⟩)
          · exact absurd h1 hx
          · exact absurd hx hnm
          · exact absurd hx hnv
      | some out =>
        have hv : ∀ e ∈ component.Env, e.Name ≠ none ∧ e.Value ≠ none := by
          intro e he
          have hn : ¬ ∃ e ∈ component.Env, e.Name = none ∨ e.Value = none := by
            intro hx
            have := (ConvertEnvs_loop_eq_none component.Env []).2 hx
            rw [ConvertEnvs, this] at hc
            exact Option.noConfusion hc
          exact ⟨fun hx => hn ⟨e, he, Or.inl hx⟩, fun hx => hn ⟨e, he, Or.inr hx⟩⟩
        have hmem := ConvertEnvs_mem component.Env out hc
        have h3 : (∃ s ∈ out, s ∉ cfg.Env) ↔ ∃ e ∈ component.Env, ∃ n v,
            e.Name = some n ∧ e.Value = some v ∧ n ++ "=" ++ v ∉ cfg.Env := by
          constructor
          · rintro ⟨s, hs, hns⟩
            obtain ⟨e, he, n, v, hn, hv, rfl⟩ := (hmem s).1 hs
            exact ⟨e, he, n, v, hn, hv, hns⟩
          · rintro ⟨e, he, n, v, hn, hv, hns⟩
            exact ⟨_, (hmem _).2 ⟨e, he, n, v, hn, hv, rfl⟩, hns⟩
        show (if DoesContainerNeedUpdating.envLoop cfg.Env out = true then some true
          else some false) = some true ↔ _
        cases hl : DoesContainerNeedUpdating.envLoop cfg.Env out with
        | true =>
          have := h3.1 ((envLoop_eq_true cfg.Env out).1 hl)
          rw [if_pos rfl]
          exact ⟨fun _ => Or.inr (Or.inr ⟨hv, this⟩), fun _ => rfl⟩
        | false =>
          have hn3 : ¬ ∃ e ∈ component.Env, ∃ n v,
              e.Name = some n ∧ e.Value = some v ∧ n ++ "=" ++ v ∉ cfg.Env := by
            intro hx
            rw [(envLoop_eq_true cfg.Env out).2 (h3.2 hx)] at hl
            exact Bool.noConfusion hl
          rw [if_neg Bool.false_ne_true]
          constructor
          · intro hx
            exact absurd (Option.some.inj hx) Bool.false_ne_true
          · rintro (hx | hx | ⟨_, hx⟩)
            · exact absurd h1 hx
            · exact absurd hx hnm
            · exact absurd hx hn3
  · have hb : (image != cfg.Image) = true := by simp [h1]
    rw [hb, if_pos rfl]
    exact ⟨fun _ => Or.inl h1, fun _ => rfl⟩

/-- When `DoesContainerNeedUpdating` panics on non-nil image and config. -/
theorem DoesContainerNeedUpdating_eq_none (component : DevfileComponent) (image : String)
    (cfg : Config) (devfileMounts : List Mount) (containerMounts : List MountPoint)
    (hImage : component.Image = some image) :
    DoesContainerNeedUpdating component (some cfg) devfileMounts containerMounts = none ↔
      image = cfg.Image ∧
      (∀ m ∈ devfileMounts,
        ∃ p ∈ containerMounts, p.Name = m.Source ∧ p.Destination = m.Target) ∧
      ∃ e ∈ component.Env, e.Name = none ∨ e.Value = none := by
  rw [DoesContainerNeedUpdating_unfold component image cfg devfileMounts containerMounts hImage]
  by_cases h1 : image = cfg.Image
  · have hb : (image != cfg.Image) = false := by simp [h1]
    rw [hb, if_neg Bool.false_ne_true]
    cases hm : DoesContainerNeedUpdating.mountLoop containerMounts devfileMounts with
    | true =>
      obtain ⟨m, hmem, hno⟩ := (mountLoop_eq_true containerMounts devfileMounts).1 hm
      rw [if_pos rfl]
      constructor
      · intro hx
        exact Option.noConfusion hx
      · rintro ⟨_, hall, _⟩
        exact absurd (hall m hmem) hno
    | false =>
      rw [if_neg Bool.false_ne_true]
      have hall : ∀ m ∈ devfileMounts,
          ∃ p ∈ containerMounts, p.Name = m.Source ∧ p.Destination = m.Target := by
        intro m hmem
        by_contra hno
        rw [(mountLoop_eq_true containerMounts devfileMounts).2 ⟨m, hmem, hno⟩] at hm
        exact Bool.noConfusion hm
      cases hc : ConvertEnvs component.Env with
      | none =>
        have := (ConvertEnvs_loop_eq_none component.Env []).1 hc
        exact ⟨fun _ => ⟨h1, hall, this⟩, fun _ => rfl⟩
      | some out =>
        have hn : ¬ ∃ e ∈ component.Env, e.Name = none ∨ e.Value = none := by
          intro hx
          have := (ConvertEnvs_loop_eq_none component.Env []).2 hx
          rw [ConvertEnvs, this] at hc
          exact Option.noConfusion hc
        show (if DoesContainerNeedUpdating.envLoop cfg.Env out = true then some true
          else some false) = none ↔ _
        constructor
        · intro hx
          split at hx <;> exact Option.noConfusion hx
        · rintro ⟨_, _, hx⟩
          exact absurd hx hn
  · have hb : (image != cfg.Image) = true := by simp [h1]
    rw [hb, if_pos rfl]
    constructor
    · intro hx
      exact Option.noConfusion hx
    · rintro ⟨hx, _⟩
      exact absurd hx h1

/-- An optional boolean that is neither `some true` nor `none` is `some false`. -/
theorem option_bool_eq_false (x : Option Bool) (h1 : x ≠ some true) (h2 : x ≠ none) :
    x = some false := by
  rcases x with _ | _ | _
  · exact absurd rfl h2
  · rfl
  · exact absurd rfl h1

/-- Two optional booleans that agree on `some true` and on `none` are equal. -/
theorem option_bool_ext (x y : Option Bool) (h1 : x = some true ↔ y = some true)
    (h2 : x = none ↔ y = none) : x = y := by
  rcases x with _ | _ | _
  · exact (h2.1 rfl).symm
  · rcases y with _ | _ | _
    · exact absurd (h2.2 rfl) (by simp)
    · rfl
    · exact absurd (h1.2 rfl) (by simp)
  · exact (h1.1 rfl).symm

/-- When `DoesContainerNeedUpdating` returns `false`. -/
theorem DoesContainerNeedUpdating_eq_false (component : DevfileComponent) (image : String)
    (cfg : Config) (devfileMounts : List Mount) (containerMounts : List MountPoint)
    (hImage : component.Image = some image) :
    DoesContainerNeedUpdating component (some cfg) devfileMounts containerMounts = some false ↔
      image = cfg.Image ∧
      (∀ m ∈ devfileMounts,
        ∃ p ∈ containerMounts, p.Name = m.Source ∧ p.Destination = m.Target) ∧
      (∀ e ∈ component.Env, e.Name ≠ none ∧ e.Value ≠ none) ∧
      ∀ e ∈ component.Env, ∀ n v,
        e.Name = some n → e.Value = some v → n ++ "=" ++ v ∈ cfg.Env := by
  have ht := DoesContainerNeedUpdating_eq_true component image cfg devfileMounts
    containerMounts hImage
  have hn := DoesContainerNeedUpdating_eq_none component image cfg devfileMounts
    containerMounts hImage
  constructor
  · intro hf
    have nt : ¬ DoesContainerNeedUpdating component (some cfg) devfileMounts containerMounts
        = some true := by rw [hf]; simp
    have nn : ¬ DoesContainerNeedUpdating component (some cfg) devfileMounts containerMounts
        = none := by rw [hf]; simp
    rw [ht] at nt
    rw [hn] at nn
    have h1 : image = cfg.Image := by
      by_contra hc
      exact nt (Or.inl hc)
    have h2 : ∀ m ∈ devfileMounts,
        ∃ p ∈ containerMounts, p.Name = m.Source ∧ p.Destination = m.Target := by
      intro m hm
      by_contra hc
      exact nt (Or.inr (Or.inl ⟨m, hm, hc⟩))
    have h3 : ∀ e ∈ component.Env, e.Name ≠ none ∧ e.Value ≠ none := by
      intro e he
      constructor
      · intro hc
        exact nn ⟨h1, h2, e, he, Or.inl hc⟩
      · intro hc
        exact nn ⟨h1, h2, e, he, Or.inr hc⟩
    refine ⟨h1, h2, h3, ?_⟩
    intro e he n v hna hva
    by_contra hc
    exact nt (Or.inr (Or.inr ⟨h3, e, he, n, v, hna, hva, hc⟩))
  · rintro ⟨h1, h2, h3, h4⟩
    apply option_bool_eq_false
    · intro hx
      rcases ht.1 hx with hc | ⟨m, hm, hc⟩ | ⟨_, e, he, n, v, hna, hva, hc⟩
      · exact hc h1
      · exact hc (h2 m hm)
      · exact hc (h4 e he n v hna hva)
    · intro hx
      obtain ⟨_, _, e, he, hc | hc⟩ := hn.1 hx
      · exact (h3 e he).1 hc
      · exact (h3 e he).2 hc

/-! ## The claims -/

/-- C1 (as amended). For a declared component with a non-nil image and a
non-nil runtime config, `DoesContainerNeedUpdating` returns `true` exactly
when (1) the declared image differs from the runtime image, or (2) some
declared mount has no runtime mount point with `Name = Source` and
`Destination = Target`, or (3) every declared env pair has a non-nil name and
value and for some pair `name ++ "=" ++ value` is not in the runtime env. It
returns `false` exactly when image, all declared mounts and all declared env
entries match and every declared env pair has a non-nil name and value. -/
theorem DoesContainerNeedUpdating_decision (component : DevfileComponent) (image : String)
    (cfg : Config) (devfileMounts : List Mount) (containerMounts : List MountPoint)
    (hImage : component.Image = some image) :
    (DoesContainerNeedUpdating component (some cfg) devfileMounts containerMounts = some true ↔
      image ≠ cfg.Image ∨
      (∃ m ∈ devfileMounts,
        ¬ ∃ p ∈ containerMounts, p.Name = m.Source ∧ p.Destination = m.Target) ∨
      ((∀ e ∈ component.Env, e.Name ≠ none ∧ e.Value ≠ none) ∧
        ∃ e ∈ component.Env, ∃ n v,
          e.Name = some n ∧ e.Value = some v ∧ n ++ "=" ++ v ∉ cfg.Env)) ∧
    (DoesContainerNeedUpdating component (some cfg) devfileMounts containerMounts = some false ↔
      image = cfg.Image ∧
      (∀ m ∈ devfileMounts,
        ∃ p ∈ containerMounts, p.Name = m.Source ∧ p.Destination = m.Target) ∧
      (∀ e ∈ component.Env, e.Name ≠ none ∧ e.Value ≠ none) ∧
      ∀ e ∈ component.Env, ∀ n v,
        e.Name = some n → e.Value = some v → n ++ "=" ++ v ∈ cfg.Env) :=
  ⟨DoesContainerNeedUpdating_eq_true component image cfg devfileMounts containerMounts hImage,
   DoesContainerNeedUpdating_eq_false component image cfg devfileMounts containerMounts hImage⟩

/-- C1, witness: the spec scenario with declared env `FOO=bar` against the
runtime env `BAZ=qux`, and a matching mount. -/
theorem DoesContainerNeedUpdating_decision_witness :
    (DoesContainerNeedUpdating ⟨some "node:12", [⟨some "FOO", some "bar"⟩]⟩
        (some ⟨"node:12", ["BAZ=qux"]⟩)
        [⟨"volume", "odo-project-vol", "/projects"⟩]
        [⟨"volume", "odo-project-vol", "", "/projects"⟩] = some true ↔
      "node:12" ≠ "node:12" ∨
      (∃ m ∈ [(⟨"volume", "odo-project-vol", "/projects"⟩ : Mount)],
        ¬ ∃ p ∈ [(⟨"volume", "odo-project-vol", "", "/projects"⟩ : MountPoint)],
          p.Name = m.Source ∧ p.Destination = m.Target) ∨
      ((∀ e ∈ [(⟨some "FOO", some "bar"⟩ : DockerimageEnv)], e.Name ≠ none ∧ e.Value ≠ none) ∧
        ∃ e ∈ [(⟨some "FOO", some "bar"⟩ : DockerimageEnv)], ∃ n v,
          e.Name = some n ∧ e.Value = some v ∧ n ++ "=" ++ v ∉ ["BAZ=qux"])) ∧
    DoesContainerNeedUpdating ⟨some "node:12", [⟨some "FOO", some "bar"⟩]⟩
        (some ⟨"node:12", ["BAZ=qux"]⟩)
        [⟨"volume", "odo-project-vol", "/projects"⟩]
        [⟨"volume", "odo-project-vol", "", "/projects"⟩] = some true :=
  ⟨(DoesContainerNeedUpdating_decision ⟨some "node:12", [⟨some "FOO", some "bar"⟩]⟩ "node:12"
      ⟨"node:12", ["BAZ=qux"]⟩ [⟨"volume", "odo-project-vol", "/projects"⟩]
      [⟨"volume", "odo-project-vol", "", "/projects"⟩] rfl).1, by decide⟩

/-- C1, counterexample to the claim as stated. The declared image is non-nil
and equal to the runtime image, there are no mounts, and the declared pair
`FOO=bar` is missing from the (empty) runtime env, so condition (3) of the
claim holds; but a second declared pair has a nil name, `ConvertEnvs`
dereferences it, and no boolean is returned. -/
theorem DoesContainerNeedUpdating_nil_env_counterexample :
    DoesContainerNeedUpdating ⟨some "a", [⟨some "FOO", some "bar"⟩, ⟨none, some "x"⟩]⟩
        (some ⟨"a", []⟩) [] [] = none ∧
    ¬ (DoesContainerNeedUpdating ⟨some "a", [⟨some "FOO", some "bar"⟩, ⟨none, some "x"⟩]⟩
        (some ⟨"a", []⟩) [] [] = some true ↔
      "a" ≠ "a" ∨
      (∃ m ∈ ([] : List Mount),
        ¬ ∃ p ∈ ([] : List MountPoint), p.Name = m.Source ∧ p.Destination = m.Target) ∨
      ∃ e ∈ [(⟨some "FOO", some "bar"⟩ : DockerimageEnv), ⟨none, some "x"⟩], ∃ n v,
        e.Name = some n ∧ e.Value = some v ∧ n ++ "=" ++ v ∉ ([] : List String)) := by
  refine ⟨by decide, ?_⟩
  intro h
  have h3 : ∃ e ∈ [(⟨some "FOO", some "bar"⟩ : DockerimageEnv), ⟨none, some "x"⟩], ∃ n v,
      e.Name = some n ∧ e.Value = some v ∧ n ++ "=" ++ v ∉ ([] : List String) :=
    ⟨⟨some "FOO", some "bar"⟩, List.mem_cons_self _ _, "FOO", "bar", rfl, rfl,
      List.not_mem_nil _⟩
  have := h.2 (Or.inr (Or.inr h3))
  revert this
  decide

/-- C2. When the declared image differs from the runtime image,
`DoesContainerNeedUpdating` returns `true` whatever the declared mounts, the
runtime mounts, the declared env (nil fields included) and the runtime env. -/
theorem DoesContainerNeedUpdating_image_mismatch (component : DevfileComponent)
    (image : String) (cfg : Config) (devfileMounts : List Mount)
    (containerMounts : List MountPoint) (hImage : component.Image = some image)
    (hDiff : image ≠ cfg.Image) :
    DoesContainerNeedUpdating component (some cfg) devfileMounts containerMounts = some true :=
  (DoesContainerNeedUpdating_eq_true component image cfg devfileMounts containerMounts
    hImage).2 (Or.inl hDiff)

/-- C2, witness: declared image `node:12` against runtime image `node:10`. -/
theorem DoesContainerNeedUpdating_image_mismatch_witness :
    DoesContainerNeedUpdating ⟨some "node:12", [⟨none, none⟩]⟩ (some ⟨"node:10", ["A=b"]⟩)
      [⟨"volume", "v", "/projects"⟩] [] = some true :=
  DoesContainerNeedUpdating_image_mismatch ⟨some "node:12", [⟨none, none⟩]⟩ "node:12"
    ⟨"node:10", ["A=b"]⟩ [⟨"volume", "v", "/projects"⟩] [] rfl (by decide)

/-- C3. The comparison is one-way: when `DoesContainerNeedUpdating` returns
`false`, it still returns `false` after extra strings are added anywhere in
the runtime env and extra mount points anywhere in the runtime mount list,
the runtime image being unchanged. -/
theorem DoesContainerNeedUpdating_one_way (component : DevfileComponent) (cfg : Config)
    (devfileMounts : List Mount) (containerMounts : List MountPoint)
    (env2 : List String) (containerMounts2 : List MountPoint)
    (hEnv : List.Sublist cfg.Env env2) (hMounts : List.Sublist containerMounts containerMounts2)
    (h : DoesContainerNeedUpdating component (some cfg) devfileMounts containerMounts
      = some false) :
    DoesContainerNeedUpdating component (some { cfg with Env := env2 }) devfileMounts
      containerMounts2 = some false := by
  rcases hI : component.Image with _ | image
  · simp [DoesContainerNeedUpdating, hI] at h
  · obtain ⟨h1, h2, h3, h4⟩ := (DoesContainerNeedUpdating_eq_false component image cfg
      devfileMounts containerMounts hI).1 h
    refine (DoesContainerNeedUpdating_eq_false component image { cfg with Env := env2 }
      devfileMounts containerMounts2 hI).2 ⟨h1, ?_, h3, ?_⟩
    · intro m hm
      obtain ⟨p, hp, hpp⟩ := h2 m hm
      exact ⟨p, hMounts.subset hp, hpp⟩
    · intro e he n v hn hv
      exact hEnv.subset (h4 e he n v hn hv)

/-- C3, witness: a runtime-only env entry and a runtime-only mount are added. -/
theorem DoesContainerNeedUpdating_one_way_witness :
    DoesContainerNeedUpdating ⟨some "a", [⟨some "FOO", some "bar"⟩]⟩
      (some ⟨"a", ["EXTRA=1", "FOO=bar"]⟩) [⟨"volume", "v", "/projects"⟩]
      [⟨"volume", "v", "", "/projects"⟩, ⟨"volume", "w", "", "/data"⟩] = some false :=
  DoesContainerNeedUpdating_one_way ⟨some "a", [⟨some "FOO", some "bar"⟩]⟩ ⟨"a", ["FOO=bar"]⟩
    [⟨"volume", "v", "/projects"⟩] [⟨"volume", "v", "", "/projects"⟩]
    ["EXTRA=1", "FOO=bar"] [⟨"volume", "v", "", "/projects"⟩, ⟨"volume", "w", "", "/data"⟩]
    (List.Sublist.cons _ (List.Sublist.refl _))
    (List.Sublist.cons₂ _ (List.Sublist.cons _ List.Sublist.slnil))
    (by decide)

/-- C4. `ComponentExists` returns `true` exactly when `GetContainerList`
returns no error and `GetContainersByComponent name` applied to the returned
list is non-empty; when `GetContainerList` returns an error the result is
`false`, whatever list came with the error and whatever the filter returns. -/
theorem ComponentExists_iff {κ ε : Type} (client : Client κ ε) (name : String) :
    (ComponentExists client name = true ↔
      client.GetContainerList.2 = none ∧
      client.GetContainersByComponent name client.GetContainerList.1 ≠ []) ∧
    (∀ err, client.GetContainerList.2 = some err → ComponentExists client name = false) := by
  unfold ComponentExists
  rcases hL : client.GetContainerList with ⟨containerList, _ | err⟩
  · simp
  · simp

/-- C4, witness: a list call that fails with a matching container in hand
gives `false`; the same list without the error gives `true`. -/
theorem ComponentExists_iff_witness :
    ComponentExists (⟨(["c1"], some "daemon down"), fun _ l => l⟩ : Client String String)
      "comp" = false ∧
    ComponentExists (⟨(["c1"], none), fun _ l => l⟩ : Client String String) "comp" = true :=
  ⟨(ComponentExists_iff (⟨(["c1"], some "daemon down"), fun _ l => l⟩ : Client String String)
      "comp").2 "daemon down" rfl,
   (ComponentExists_iff (⟨(["c1"], none), fun _ l => l⟩ : Client String String)
      "comp").1.2 ⟨rfl, by simp⟩⟩

/-- C5. On env pairs with non-nil name and value `ConvertEnvs` returns a list
of the same length as its input whose `i`-th element is
`name_i ++ "=" ++ value_i` for every index `i` (so pairs that share a name
each give their own entry, nothing is merged); the empty input gives the
empty list. -/
theorem ConvertEnvs_encode (vars : List DockerimageEnv)
    (hValid : ∀ e ∈ vars, e.Name ≠ none ∧ e.Value ≠ none) :
    ConvertEnvs [] = some [] ∧
    ∃ out, ConvertEnvs vars = some out ∧ out.length = vars.length ∧
      ∀ (i : Nat) (e : DockerimageEnv), vars[i]? = some e →
        ∃ n v, e.Name = some n ∧ e.Value = some v ∧ out[i]? = some (n ++ "=" ++ v) := by
  refine ⟨rfl, ?_⟩
  obtain ⟨pairs, rfl⟩ := exists_pairs_of_valid vars hValid
  refine ⟨pairs.map (fun p => p.1 ++ "=" ++ p.2), ?_, by simp, ?_⟩
  · rw [ConvertEnvs, ConvertEnvs_loop_map]
    simp
  · intro i e hi
    rw [List.getElem?_map] at hi
    rcases hp : pairs[i]? with _ | p
    · rw [hp] at hi
      exact Option.noConfusion hi
    · rw [hp] at hi
      simp only [Option.map_some', Option.some.injEq] at hi
      subst hi
      exact ⟨p.1, p.2, rfl, rfl, by rw [List.getElem?_map, hp]; rfl⟩

/-- C5, witness: two pairs with the same name both survive, in order. -/
theorem ConvertEnvs_encode_witness :
    ConvertEnvs [] = some [] ∧
    ∃ out, ConvertEnvs [⟨some "A", some "1"⟩, ⟨some "B", some "2"⟩, ⟨some "A", some "3"⟩]
        = some out ∧
      out.length = [(⟨some "A", some "1"⟩ : DockerimageEnv), ⟨some "B", some "2"⟩,
        ⟨some "A", some "3"⟩].length ∧
      ∀ (i : Nat) (e : DockerimageEnv), [(⟨some "A", some "1"⟩ : DockerimageEnv), ⟨some "B", some "2"⟩,
          ⟨some "A", some "3"⟩][i]? = some e →
        ∃ n v, e.Name = some n ∧ e.Value = some v ∧ out[i]? = some (n ++ "=" ++ v) :=
  ConvertEnvs_encode [⟨some "A", some "1"⟩, ⟨some "B", some "2"⟩, ⟨some "A", some "3"⟩]
    (by decide)

/-- C6. On a non-nil `hostConfig`, `AddProjectVolumeToComp` returns the
pointer it was given; after the call the mount list of the config is the
previous list followed by the one descriptor with `Type = volume`,
`Source = projectVolumeName` and `Target = OdoSourceVolumeMount`, every
earlier mount is at its index with its value, and no other field of the
config has changed. -/
theorem AddProjectVolumeToComp_appends {ρ : Type} (OdoSourceVolumeMount : String)
    (projectVolumeName : String) (a : Nat) (hc : HostConfig ρ) :
    ∃ hc2, AddProjectVolumeToComp OdoSourceVolumeMount projectVolumeName (some (a, hc))
        = some (a, hc2) ∧
      hc2.Mounts = hc.Mounts ++
        [{ Type_ := TypeVolume, Source := projectVolumeName, Target := OdoSourceVolumeMount }] ∧
      hc2.Mounts.length = hc.Mounts.length + 1 ∧
      (∀ i, i < hc.Mounts.length → hc2.Mounts[i]? = hc.Mounts[i]?) ∧
      hc2.other = hc.other := by
  refine ⟨_, rfl, rfl, ?_, ?_, rfl⟩
  · simp
  · intro i hi
    simp [List.getElem?_append_left hi]

/-- C7. Calling `AddProjectVolumeToComp` twice with the same volume name on
the same config (the second call on the pointer returned by the first)
appends two identical descriptors: the mount list is the old one followed by
the same descriptor twice, and the number of mounts with `Source = v` is two
more than before (exactly two when there was none). -/
theorem AddProjectVolumeToComp_twice {ρ : Type} (OdoSourceVolumeMount : String) (v : String)
    (a : Nat) (hc : HostConfig ρ) :
    ∃ hc2,
      (AddProjectVolumeToComp OdoSourceVolumeMount v (some (a, hc))).bind
          (fun r => AddProjectVolumeToComp OdoSourceVolumeMount v (some r))
        = some (a, hc2) ∧
      hc2.Mounts = hc.Mounts ++
        [{ Type_ := TypeVolume, Source := v, Target := OdoSourceVolumeMount },
         { Type_ := TypeVolume, Source := v, Target := OdoSourceVolumeMount }] ∧
      hc2.Mounts[hc.Mounts.length]?
        = some { Type_ := TypeVolume, Source := v, Target := OdoSourceVolumeMount } ∧
      hc2.Mounts[hc.Mounts.length + 1]?
        = some { Type_ := TypeVolume, Source := v, Target := OdoSourceVolumeMount } ∧
      hc2.Mounts.length = hc.Mounts.length + 2 ∧
      hc2.Mounts.countP (fun m => m.Source == v)
        = hc.Mounts.countP (fun m => m.Source == v) + 2 ∧
      (hc.Mounts.countP (fun m => m.Source == v) = 0 →
        hc2.Mounts.countP (fun m => m.Source == v) = 2) := by
  refine ⟨⟨hc.Mounts ++
        [{ Type_ := TypeVolume, Source := v, Target := OdoSourceVolumeMount },
         { Type_ := TypeVolume, Source := v, Target := OdoSourceVolumeMount }],
      hc.other⟩, ?_, rfl, ?_, ?_, ?_, ?_, ?_⟩
  · simp [AddProjectVolumeToComp]
  · show (hc.Mounts ++ _)[hc.Mounts.length]? = _
    rw [List.getElem?_append_right (le_refl _)]
    simp
  · show (hc.Mounts ++ _)[hc.Mounts.length + 1]? = _
    rw [List.getElem?_append_right (Nat.le_succ _)]
    simp
  · simp
  · simp [List.countP_append, List.countP_cons]
  · intro h0
    simp [List.countP_append, List.countP_cons, h0]

/-- C8. On validated input (non-nil declared image, declared env pairs with
non-nil name and value, non-nil runtime config, any mount lists, empty ones
included) `DoesContainerNeedUpdating` returns a boolean and `ConvertEnvs`
returns a list: neither reaches a nil dereference. -/
theorem comparator_total (component : DevfileComponent) (image : String) (cfg : Config)
    (devfileMounts : List Mount) (containerMounts : List MountPoint)
    (hImage : component.Image = some image)
    (hEnv : ∀ e ∈ component.Env, e.Name ≠ none ∧ e.Value ≠ none) :
    (∃ b, DoesContainerNeedUpdating component (some cfg) devfileMounts containerMounts = some b) ∧
    ∃ out, ConvertEnvs component.Env = some out := by
  have hno : ¬ ∃ e ∈ component.Env, e.Name = none ∨ e.Value = none := by
    rintro ⟨e, he, hc | hc⟩
    · exact (hEnv e he).1 hc
    · exact (hEnv e he).2 hc
  constructor
  · rcases hD : DoesContainerNeedUpdating component (some cfg) devfileMounts containerMounts
      with _ | b
    · obtain ⟨_, _, hc⟩ := (DoesContainerNeedUpdating_eq_none component image cfg devfileMounts
        containerMounts hImage).1 hD
      exact absurd hc hno
    · exact ⟨b, rfl⟩
  · rcases hC : ConvertEnvs component.Env with _ | out
    · exact absurd ((ConvertEnvs_loop_eq_none component.Env []).1 hC) hno
    · exact ⟨out, rfl⟩

/-- C8, witness: empty mount lists and one well-formed env pair. -/
theorem comparator_total_witness :
    (∃ b, DoesContainerNeedUpdating ⟨some "a", [⟨some "FOO", some "bar"⟩]⟩ (some ⟨"a", []⟩)
      [] [] = some b) ∧
    ∃ out, ConvertEnvs [⟨some "FOO", some "bar"⟩] = some out :=
  comparator_total ⟨some "a", [⟨some "FOO", some "bar"⟩]⟩ "a" ⟨"a", []⟩ [] [] rfl (by decide)

/-- C9. The result of `DoesContainerNeedUpdating` (the boolean, or the panic)
is the same when the declared mount list, the runtime mount-point list, the
declared env list and the runtime env list are replaced by permutations of
themselves. -/
theorem DoesContainerNeedUpdating_perm (image : Option String) (rimage : String)
    (env env2 : List DockerimageEnv) (renv renv2 : List String)
    (devfileMounts devfileMounts2 : List Mount) (containerMounts containerMounts2 : List MountPoint)
    (hEnv : List.Perm env env2) (hREnv : List.Perm renv renv2)
    (hDM : List.Perm devfileMounts devfileMounts2)
    (hCM : List.Perm containerMounts containerMounts2) :
    DoesContainerNeedUpdating ⟨image, env⟩ (some ⟨rimage, renv⟩) devfileMounts containerMounts
      = DoesContainerNeedUpdating ⟨image, env2⟩ (some ⟨rimage, renv2⟩) devfileMounts2
          containerMounts2 := by
  rcases image with _ | image
  · simp [DoesContainerNeedUpdating]
  · have hP2 : (∃ m ∈ devfileMounts,
          ¬ ∃ p ∈ containerMounts, p.Name = m.Source ∧ p.Destination = m.Target) ↔
        ∃ m ∈ devfileMounts2,
          ¬ ∃ p ∈ containerMounts2, p.Name = m.Source ∧ p.Destination = m.Target := by
      constructor
      · rintro ⟨m, hm, hno⟩
        refine ⟨m, hDM.mem_iff.1 hm, ?_⟩
        rintro ⟨q, hq, hqq⟩
        exact hno ⟨q, hCM.mem_iff.2 hq, hqq⟩
      · rintro ⟨m, hm, hno⟩
        refine ⟨m, hDM.mem_iff.2 hm, ?_⟩
        rintro ⟨q, hq, hqq⟩
        exact hno ⟨q, hCM.mem_iff.1 hq, hqq⟩
    have hA2 : (∀ m ∈ devfileMounts,
          ∃ p ∈ containerMounts, p.Name = m.Source ∧ p.Destination = m.Target) ↔
        ∀ m ∈ devfileMounts2,
          ∃ p ∈ containerMounts2, p.Name = m.Source ∧ p.Destination = m.Target := by
      constructor
      · intro h m hm
        obtain ⟨q, hq, hqq⟩ := h m (hDM.mem_iff.2 hm)
        exact ⟨q, hCM.mem_iff.1 hq, hqq⟩
      · intro h m hm
        obtain ⟨q, hq, hqq⟩ := h m (hDM.mem_iff.1 hm)
        exact ⟨q, hCM.mem_iff.2 hq, hqq⟩
    have hV : (∀ e ∈ env, e.Name ≠ none ∧ e.Value ≠ none) ↔
        ∀ e ∈ env2, e.Name ≠ none ∧ e.Value ≠ none :=
      ⟨fun h e he => h e (hEnv.mem_iff.2 he), fun h e he => h e (hEnv.mem_iff.1 he)⟩
    have hN : (∃ e ∈ env, e.Name = none ∨ e.Value = none) ↔
        ∃ e ∈ env2, e.Name = none ∨ e.Value = none := by
      constructor
      · rintro ⟨e, he, hc⟩
        exact ⟨e, hEnv.mem_iff.1 he, hc⟩
      · rintro ⟨e, he, hc⟩
        exact ⟨e, hEnv.mem_iff.2 he, hc⟩
    have hP3 : (∃ e ∈ env, ∃ n v,
          e.Name = some n ∧ e.Value = some v ∧ n ++ "=" ++ v ∉ renv) ↔
        ∃ e ∈ env2, ∃ n v,
          e.Name = some n ∧ e.Value = some v ∧ n ++ "=" ++ v ∉ renv2 := by
      constructor
      · rintro ⟨e, he, n, v, hn, hv, hno⟩
        exact ⟨e, hEnv.mem_iff.1 he, n, v, hn, hv, fun hc => hno (hREnv.mem_iff.2 hc)⟩
      · rintro ⟨e, he, n, v, hn, hv, hno⟩
        exact ⟨e, hEnv.mem_iff.2 he, n, v, hn, hv, fun hc => hno (hREnv.mem_iff.1 hc)⟩
    apply option_bool_ext
    · rw [DoesContainerNeedUpdating_eq_true ⟨some image, env⟩ image ⟨rimage, renv⟩
          devfileMounts containerMounts rfl,
        DoesContainerNeedUpdating_eq_true ⟨some image, env2⟩ image ⟨rimage, renv2⟩
          devfileMounts2 containerMounts2 rfl]
      show image ≠ rimage ∨ _ ∨ ((∀ e ∈ env, _) ∧ ∃ e ∈ env, ∃ n v, _ ∧ _ ∧ _ ∉ renv) ↔
        image ≠ rimage ∨ _ ∨ ((∀ e ∈ env2, _) ∧ ∃ e ∈ env2, ∃ n v, _ ∧ _ ∧ _ ∉ renv2)
      rw [hP2, hV, hP3]
    · rw [DoesContainerNeedUpdating_eq_none ⟨some image, env⟩ image ⟨rimage, renv⟩
          devfileMounts containerMounts rfl,
        DoesContainerNeedUpdating_eq_none ⟨some image, env2⟩ image ⟨rimage, renv2⟩
          devfileMounts2 containerMounts2 rfl]
      show image = rimage ∧ _ ∧ (∃ e ∈ env, _) ↔ image = rimage ∧ _ ∧ (∃ e ∈ env2, _)
      rw [hA2, hN]

/-- C9, witness: every one of the four lists is reordered. -/
theorem DoesContainerNeedUpdating_perm_witness :
    DoesContainerNeedUpdating ⟨some "a", [⟨some "A", some "1"⟩, ⟨some "B", some "2"⟩]⟩
        (some ⟨"a", ["A=1", "C=3"]⟩)
        [⟨"volume", "v", "/projects"⟩, ⟨"volume", "w", "/data"⟩]
        [⟨"volume", "w", "", "/data"⟩, ⟨"volume", "v", "", "/projects"⟩]
      = DoesContainerNeedUpdating ⟨some "a", [⟨some "B", some "2"⟩, ⟨some "A", some "1"⟩]⟩
        (some ⟨"a", ["C=3", "A=1"]⟩)
        [⟨"volume", "w", "/data"⟩, ⟨"volume", "v", "/projects"⟩]
        [⟨"volume", "v", "", "/projects"⟩, ⟨"volume", "w", "", "/data"⟩] :=
  DoesContainerNeedUpdating_perm (some "a") "a" _ _ _ _ _ _ _ _
    (List.Perm.swap _ _ _) (List.Perm.swap _ _ _) (List.Perm.swap _ _ _) (List.Perm.swap _ _ _)

/-! ## `ReplaceDevfileField` when the first matching line has a colon -/

theorem splitChars_ne_nil (sep : Char) (cs : List Char) :
    ∀ cur, ∃ x xs, strings.splitChars sep cur cs = x :: xs := by
  induction cs with
  | nil => intro cur; exact ⟨cur, [], rfl⟩
  | cons c cs ih =>
    intro cur
    by_cases h : c = sep
    · exact ⟨cur, strings.splitChars sep [] cs, by simp [strings.splitChars, h]⟩
    · obtain ⟨x, xs, hx⟩ := ih (cur ++ [c])
      exact ⟨x, xs, by simp [strings.splitChars, h, hx]⟩

/-- Joining the pieces of a split with the separator gives the text back. -/
theorem Join_splitChars (sep : Char) (cs : List Char) :
    ∀ cur, strings.Join ((strings.splitChars sep cur cs).map String.mk) (String.mk [sep])
      = String.mk (cur ++ cs) := by
  induction cs with
  | nil => intro cur; simp [strings.splitChars, strings.Join]
  | cons c cs ih =>
    intro cur
    by_cases h : c = sep
    · obtain ⟨x, xs, hx⟩ := splitChars_ne_nil sep cs []
      have := ih []
      rw [hx] at this
      simp only [strings.splitChars, h, if_true, hx, List.map_cons, strings.Join]
      simp only [List.map_cons] at this
      rw [this]
      apply String.ext
      simp
    · have := ih (cur ++ [c])
      simp only [strings.splitChars, h, if_false]
      rw [this]
      simp

theorem Join_Split (s : String) : strings.Join (strings.Split s '\n') "\n" = s :=
  Join_splitChars '\n' s.data []

theorem cutN_one_sep (sep : Char) (b a : List Char) (hb : sep ∉ b) :
    ∀ cur, strings.cutN sep 1 cur (b ++ sep :: a) = [cur ++ b, a] := by
  induction b with
  | nil =>
    intro cur
    cases a <;> simp [strings.cutN]
  | cons c b ih =>
    intro cur
    have hc : c ≠ sep := fun h => hb (by simp [h])
    have hb2 : sep ∉ b := fun h => hb (List.mem_cons_of_mem _ h)
    simp [strings.cutN, hc, ih hb2]

theorem cutN_no_sep (sep : Char) (cs : List Char) (h : sep ∉ cs) :
    ∀ cur, strings.cutN sep 1 cur cs = [cur ++ cs] := by
  induction cs with
  | nil => intro cur; simp [strings.cutN]
  | cons c cs ih =>
    intro cur
    have hc : c ≠ sep := fun hx => h (by simp [hx])
    have h2 : sep ∉ cs := fun hx => h (List.mem_cons_of_mem _ hx)
    simp [strings.cutN, hc, ih h2]

/-- `strings.Contains` is the infix relation on the characters. -/
theorem containsChars_iff (sub cs : List Char) :
    strings.containsChars sub cs = true ↔ sub <:+: cs := by
  induction cs with
  | nil =>
    cases sub <;> simp [strings.containsChars]
  | cons c cs ih =>
    simp only [strings.containsChars, Bool.or_eq_true, ih, List.isPrefixOf_iff_prefix,
      List.infix_cons_iff]

/-- The loop leaves lines without the field alone. -/
theorem loop_no_match (field newValue : String) (lines : List String)
    (h : ∀ l ∈ lines, strings.Contains l field = false) :
    ReplaceDevfileField.loop field newValue lines = some lines := by
  induction lines with
  | nil => rfl
  | cons l rest ih =>
    have h1 := h l (List.mem_cons_self _ _)
    have h2 := ih (fun x hx => h x (List.mem_cons_of_mem _ hx))
    simp [ReplaceDevfileField.loop, h1, h2]

/-- The loop rewrites the first line with the field, when it has a colon. -/
theorem loop_first_match (field newValue : String) (pre post : List String)
    (before after : String)
    (hPre : ∀ l ∈ pre, strings.Contains l field = false)
    (hLine : strings.Contains (before ++ ":" ++ after) field = true)
    (hBefore : ':' ∉ before.data) :
    ReplaceDevfileField.loop field newValue (pre ++ (before ++ ":" ++ after) :: post)
      = some (pre ++ (before ++ ": " ++ newValue) :: post) := by
  induction pre with
  | nil =>
    have hs : strings.SplitN (before ++ ":" ++ after) ':' 2 = [before, after] := by
      have := cutN_one_sep ':' before.data after.data hBefore []
      simp only [strings.SplitN, String.data_append]
      rw [List.append_assoc, List.singleton_append, if_neg (by decide), this]
      simp
    simp only [List.nil_append, ReplaceDevfileField.loop, hLine, if_true, hs]
    simp [strings.Join]
  | cons l rest ih =>
    have h1 := hPre l (List.mem_cons_self _ _)
    have h2 := ih (fun x hx => hPre x (List.mem_cons_of_mem _ hx))
    simp [ReplaceDevfileField.loop, h1, h2]

/-- With read and write succeeding, and no line containing the field, the
content is written back unchanged and nil is returned. -/
theorem ReplaceDevfileField_no_match {ε : Type} (fs : FileSystem ε)
    (devfileLocation field newValue content : String)
    (hRead : fs.ReadFile devfileLocation = (content, none))
    (hWrite : ∀ out, fs.WriteFile devfileLocation out = none)
    (hNo : ∀ l ∈ strings.Split content '\n', strings.Contains l field = false) :
    ReplaceDevfileField fs devfileLocation field newValue = some (none, some content) := by
  simp only [ReplaceDevfileField, hRead, loop_no_match field newValue _ hNo, Join_Split, hWrite]

/-- With read and write succeeding, when the first line containing the field
is `before ++ ":" ++ after` with no colon in `before`, that line is written
back as `before ++ ": " ++ newValue`, every other line is written back
unchanged, and nil is returned. -/
theorem ReplaceDevfileField_first_match {ε : Type} (fs : FileSystem ε)
    (devfileLocation field newValue content : String) (pre post : List String)
    (before after : String)
    (hRead : fs.ReadFile devfileLocation = (content, none))
    (hWrite : ∀ out, fs.WriteFile devfileLocation out = none)
    (hLines : strings.Split content '\n' = pre ++ (before ++ ":" ++ after) :: post)
    (hPre : ∀ l ∈ pre, strings.Contains l field = false)
    (hLine : strings.Contains (before ++ ":" ++ after) field = true)
    (hBefore : ':' ∉ before.data) :
    ReplaceDevfileField fs devfileLocation field newValue
      = some (none, some (strings.Join (pre ++ (before ++ ": " ++ newValue) :: post) "\n")) := by
  simp only [ReplaceDevfileField, hRead, hLines,
    loop_first_match field newValue pre post before after hPre hLine hBefore, hWrite]

/-- With read and write succeeding, when the first line containing the field
has no colon, the function panics. -/
theorem ReplaceDevfileField_panics {ε : Type} (fs : FileSystem ε)
    (devfileLocation field newValue content : String) (pre post : List String) (line : String)
    (hRead : fs.ReadFile devfileLocation = (content, none))
    (hLines : strings.Split content '\n' = pre ++ line :: post)
    (hPre : ∀ l ∈ pre, strings.Contains l field = false)
    (hLine : strings.Contains line field = true)
    (hColon : ':' ∉ line.data) :
    ReplaceDevfileField fs devfileLocation field newValue = none := by
  have hloop : ReplaceDevfileField.loop field newValue (pre ++ line :: post) = none := by
    clear hLines
    induction pre with
    | nil =>
      have hs : strings.SplitN line ':' 2 = [line] := by
        simp [strings.SplitN, cutN_no_sep ':' line.data hColon []]
      simp [ReplaceDevfileField.loop, hLine, hs]
    | cons l rest ih =>
      have h1 := hPre l (List.mem_cons_self _ _)
      have h2 := ih (fun x hx => hPre x (List.mem_cons_of_mem _ hx))
      simp [ReplaceDevfileField.loop, h1, h2]
  simp only [ReplaceDevfileField, hRead, hLines, hloop]

/-- An instance of `ReplaceDevfileField_no_match`. -/
theorem ReplaceDevfileField_no_match_example :
    ReplaceDevfileField (FileSystem.single "name: a\nkind: b\n") "devfile.yaml" "type" "x"
      = some (none, some "name: a\nkind: b\n") :=
  ReplaceDevfileField_no_match (FileSystem.single "name: a\nkind: b\n") "devfile.yaml" "type" "x"
    "name: a\nkind: b\n" rfl (fun _ => rfl) (by decide)

/-- An instance of `ReplaceDevfileField_first_match`: two lines have the
field, the first one is rewritten. -/
theorem ReplaceDevfileField_first_match_example :
    ReplaceDevfileField (FileSystem.single "name: a\n  type: b:c\ntype: d") "devfile.yaml"
        "type" "x"
      = some (none, some "name: a\n  type: x\ntype: d") :=
  ReplaceDevfileField_first_match (FileSystem.single "name: a\n  type: b:c\ntype: d")
    "devfile.yaml" "type" "x" "name: a\n  type: b:c\ntype: d" ["name: a"] ["type: d"]
    "  type" " b:c" rfl (fun _ => rfl) (by decide) (by decide) (by decide) (by decide)

/-- C10, the code at a failing input. The first line that contains the field
`type` is a comment line without a colon: `strings.SplitN` gives a single
piece, `lineSplit[1] = newValue` is out of range, and the function panics
instead of writing the file and returning nil. -/
theorem ReplaceDevfileField_panics_without_colon :
    ReplaceDevfileField (FileSystem.single "# component type\ncomponents:\n  - type: dockerimage")
      "devfile.yaml" "type" "chePlugin" = none := by
  decide

/-! ## `env set`: the argument validator -/

/-- C11. The `Args` validator of `env set` returns nil exactly on argument
lists of length two; on every shorter list it returns the error
`please provide a parameter name and value`, on every longer list the error
`only one value per parameter is allowed`. On every accepted list `args[0]`
and `args[1]` are in range, so `Complete` does not panic, and when the
environment file loads it returns nil with `paramName = args[0]` and
`paramValue = args[1]`. -/
theorem NewCmdSet_Args_accepts_iff {κ ε : Type} (args : List String) :
    (NewCmdSet.Args args = none ↔ args.length = 2) ∧
    (args.length < 2 →
      NewCmdSet.Args args = some "please provide a parameter name and value") ∧
    (args.length > 2 →
      NewCmdSet.Args args = some "only one value per parameter is allowed") ∧
    (NewCmdSet.Args args = none →
      (∃ arg0 arg1, args[0]? = some arg0 ∧ args[1]? = some arg1) ∧
      ∀ (NewEnvSpecificInfo : String → Option κ × Option ε) (o : SetOptions κ),
        (∃ r, SetOptions.Complete NewEnvSpecificInfo o args = some r) ∧
        ((NewEnvSpecificInfo o.context).2 = none →
          ∃ o2, SetOptions.Complete NewEnvSpecificInfo o args = some (o2, none) ∧
            args[0]? = some o2.paramName ∧ args[1]? = some o2.paramValue)) := by
  have hiff : NewCmdSet.Args args = none ↔ args.length = 2 := by
    unfold NewCmdSet.Args
    by_cases h1 : args.length < 2
    · rw [if_pos h1]
      constructor
      · intro h; exact Option.noConfusion h
      · intro h; omega
    · rw [if_neg h1]
      by_cases h2 : args.length > 2
      · rw [if_pos h2]
        constructor
        · intro h; exact Option.noConfusion h
        · intro h; omega
      · rw [if_neg h2]
        exact ⟨fun _ => by omega, fun _ => rfl⟩
  refine ⟨hiff, ?_, ?_, ?_⟩
  · intro h
    unfold NewCmdSet.Args
    rw [if_pos h]
  · intro h
    unfold NewCmdSet.Args
    rw [if_neg (by omega), if_pos h]
  · intro h
    have hlen := hiff.1 h
    match args, hlen with
    | [arg0, arg1], _ =>
      refine ⟨⟨arg0, arg1, rfl, rfl⟩, ?_⟩
      intro NewEnvSpecificInfo o
      unfold SetOptions.Complete
      rcases hN : NewEnvSpecificInfo o.context with ⟨cfg, _ | err⟩
      · exact ⟨⟨_, rfl⟩, fun _ => ⟨_, rfl, rfl, rfl⟩⟩
      · refine ⟨⟨_, rfl⟩, ?_⟩
        intro hc
        exact Option.noConfusion hc

/-- C11, witness: `env set Name myNodejs` is accepted and completes. -/
theorem NewCmdSet_Args_accepts_iff_witness :
    NewCmdSet.Args ["Name", "myNodejs"] = none ∧
    ∃ o2, SetOptions.Complete (fun _ => ((some 0, none) : Option Nat × Option String))
        ⟨"", none, "", "", false⟩ ["Name", "myNodejs"] = some (o2, none) ∧
      ["Name", "myNodejs"][0]? = some o2.paramName ∧
      ["Name", "myNodejs"][1]? = some o2.paramValue :=
  ⟨by decide,
   (((NewCmdSet_Args_accepts_iff ["Name", "myNodejs"]).2.2.2 (by decide)).2
      (fun _ => ((some 0, none) : Option Nat × Option String)) ⟨"", none, "", "", false⟩).2 rfl⟩

/-- Without the validator `Complete` is not safe: on a list shorter than two,
once the environment file has loaded, the index is out of range. -/
theorem SetOptions_Complete_panics_on_short {κ ε : Type}
    (NewEnvSpecificInfo : String → Option κ × Option ε) (o : SetOptions κ) (args : List String)
    (hLoad : (NewEnvSpecificInfo o.context).2 = none) (hShort : args.length < 2) :
    SetOptions.Complete NewEnvSpecificInfo o args = none := by
  unfold SetOptions.Complete
  rcases hN : NewEnvSpecificInfo o.context with ⟨cfg, _ | err⟩
  · match args, hShort with
    | [], _ => rfl
    | [_], _ => rfl
  · rw [hN] at hLoad
    exact Option.noConfusion hLoad

end Odo
